import Mathlib

/-!
Verification development for the glint2 grid engine
(src/slib/glint2/Grid.cpp and src/slib/icebin/eigen_types.cpp).

Coordinates and areas are modelled as exact rationals; the C++ code uses
doubles, but every property checked here involves only small dyadic values
on which double arithmetic is exact.  NaN entries of dense area arrays are
modelled as the value none of Option.  A thrown C++ exception is modelled
as an error value; for member functions that mutate the grid before
throwing, the mutated grid is returned alongside the error.
-/

namespace Glint2

/-- Planar point, as the pair (x, y). -/
abbrev Point := ℚ × ℚ

/-- Cross term of the Surveyor formula for one pair of consecutive points:
x0 * y1 - x1 * y0, as on lines 37, 61 and 103 of Grid.cpp. -/
def cross (p q : Point) : ℚ := p.1 * q.2 - q.1 * p.2

/-- Loop of area_of_polygon (Grid.cpp lines 34-40): running over consecutive
pairs with current predecessor prev, adding the wrap-around term against
first when the list is exhausted. -/
def shoelaceFrom (first prev : Point) : List Point → ℚ
  | [] => cross prev first
  | p :: ps => cross prev p + shoelaceFrom first p ps

/-- Signed polygon area, Surveyor formula (Grid.cpp lines 31-43).
The C++ code assumes at least one vertex; the empty polygon is given
area 0 here. -/
def area_of_polygon (ps : List Point) : ℚ :=
  match ps with
  | [] => 0
  | p :: ps => shoelaceFrom p p ps / 2

/-- Loop of area_of_proj_polygon (Grid.cpp lines 57-68): each remaining
point is transformed exactly once, the transformed predecessor is carried
along, and the wrap-around term uses the saved transform of the first
point. -/
def projShoelaceFrom (proj : Point → Point) (first prev : Point) :
    List Point → ℚ
  | [] => cross prev first
  | p :: ps => cross prev (proj p) + projShoelaceFrom proj first (proj p) ps

/-- Signed area of the polygon after projecting each vertex
(Grid.cpp lines 48-71).  The C++ code dereferences the first vertex
unconditionally, so it assumes a nonempty polygon; the empty case is
given area 0 here. -/
def area_of_proj_polygon (proj : Point → Point) (ps : List Point) : ℚ :=
  match ps with
  | [] => 0
  | p :: ps => projShoelaceFrom proj (proj p) (proj p) ps / 2

/-- Mesh vertex (glint2::Vertex): an index (sentinel -1 when unassigned)
and planar coordinates.  Constructor argument order in C++ is (x, y, index). -/
structure Vertex where
  x : ℚ
  y : ℚ
  index : Int := -1
deriving DecidableEq, Repr

/-- Mesh cell (glint2::Cell): an index (sentinel -1 when unassigned), the
optional native address triple (i, j, k), a precomputed area, and the
ordered list of referenced vertices.  The C++ cell stores non-owning
pointers into the vertex collection of the owning grid; here the
referenced vertex records are stored directly. -/
structure Cell where
  index : Int := -1
  i : Int := -1
  j : Int := -1
  k : Int := -1
  area : ℚ := 0
  vertices : List Vertex := []
deriving DecidableEq, Repr

/-- Ordered boundary of the cell as a list of points. -/
def Cell.points (c : Cell) : List Point := c.vertices.map (fun v => (v.x, v.y))

/-- Overall grid type tag (Grid::Type). -/
inductive GridType where
  | generic
  | xy
  | lonlat
  | exchange
deriving DecidableEq, Repr

/-- Canonical string tag of a grid type, as stored by the codec. -/
def GridType.str : GridType → String
  | .generic => "GENERIC"
  | .xy => "XY"
  | .lonlat => "LONLAT"
  | .exchange => "EXCHANGE"

/-- Inverse of GridType.str (giss::parse_enum); unknown tags fail. -/
def parseGridType : String → Option GridType
  | "GENERIC" => some .generic
  | "XY" => some .xy
  | "LONLAT" => some .lonlat
  | "EXCHANGE" => some .exchange
  | _ => none

/-- Coordinate system tag (Grid::Coordinates). -/
inductive Coordinates where
  | xy
  | lonlat
deriving DecidableEq, Repr

/-- Canonical string tag of a coordinate system. -/
def Coordinates.str : Coordinates → String
  | .xy => "XY"
  | .lonlat => "LONLAT"

/-- Inverse of Coordinates.str; unknown tags fail. -/
def parseCoordinates : String → Option Coordinates
  | "XY" => some .xy
  | "LONLAT" => some .lonlat
  | _ => none

/-- Field parameterization tag (Grid::Parameterization): L0 cell-centered,
L1 vertex-centered. -/
inductive Parameterization where
  | l0
  | l1
deriving DecidableEq, Repr

/-- Canonical string tag of a parameterization. -/
def Parameterization.str : Parameterization → String
  | .l0 => "L0"
  | .l1 => "L1"

/-- Inverse of Parameterization.str; unknown tags fail. -/
def parseParameterization : String → Option Parameterization
  | "L0" => some .l0
  | "L1" => some .l1
  | _ => none

/-- Error raised when an entity is inserted with an index already present
in the collection (named DuplicateIndex in the specification; the C++
code prints a message and throws). -/
inductive GridError where
  | duplicateIndex
deriving DecidableEq, Repr

/-- Mesh container (glint2::Grid).  The collections _vertices and _cells
are modelled from the spec: giss::IndexedCollection is not under src/;
per the spec it keys entities by integer index, preserves insertion order
for iteration, and refuses insertion of a duplicate key.  It is modelled
here as a list in insertion order with by-index lookup.  The fields
_ncells_full and _nvertices_full carry the sentinel -1 while unset, also
modelled from the spec. -/
structure Grid where
  type : GridType := .generic
  name : String := ""
  coordinates : Coordinates := .lonlat
  parameterization : Parameterization := .l0
  sproj : String := ""
  _vertices : List Vertex := []
  _cells : List Cell := []
  _max_realized_cell_index : Int := 0
  _max_realized_vertex_index : Int := 0
  _ncells_full : Int := -1
  _nvertices_full : Int := -1
deriving DecidableEq, Repr

/-- Grid constructor (Grid.cpp lines 74-79): coordinates default LONLAT,
parameterization L0, both max-realized trackers 0, collections empty,
full counts unset. -/
def Grid.fresh (t : GridType) : Grid := { type := t }

/-- Number of realized cells (size of the cell collection). -/
def Grid.ncells_realized (g : Grid) : Int := g._cells.length

/-- Number of realized vertices (size of the vertex collection). -/
def Grid.nvertices_realized (g : Grid) : Int := g._vertices.length

/-- Modelled from the spec: the getter ncells_full is declared in
glint2/Grid.hpp, which is not under src/.  Per the spec, _ncells_full
records the theoretical total cardinality of the unfiltered domain once
set, and before it is set the realized count is used. -/
def Grid.ncells_full (g : Grid) : Int :=
  if 0 ≤ g._ncells_full then g._ncells_full else g.ncells_realized

/-- Modelled from the spec: the getter nvertices_full is declared in
glint2/Grid.hpp, which is not under src/; same convention as
ncells_full. -/
def Grid.nvertices_full (g : Grid) : Int :=
  if 0 ≤ g._nvertices_full then g._nvertices_full else g.nvertices_realized

/-- Lookup of a cell by index (IndexedCollection lookup, modelled from the
spec; indices are unique so the first match is the entity). -/
def Grid.get_cell (g : Grid) (ix : Int) : Option Cell :=
  g._cells.find? (fun c => c.index == ix)

/-- Lookup of a vertex by index. -/
def Grid.get_vertex (g : Grid) (ix : Int) : Option Vertex :=
  g._vertices.find? (fun v => v.index == ix)

/-- Dimensionality of the field vector space (Grid::ndata,
Grid.cpp lines 81-87). -/
def Grid.ndata (g : Grid) : Int :=
  if g.parameterization = .l1 then g.nvertices_full else g.ncells_full

/-- Grid::add_cell (Grid.cpp lines 134-149).  An unassigned index (-1) is
replaced by the current collection size; the max-realized tracker is
updated before the insertion attempt, so the returned grid keeps the
updated tracker even when the insertion fails with DuplicateIndex.  On
success the payload is the index assigned to the inserted cell, matching
the returned pointer in C++. -/
def Grid.add_cell (g : Grid) (c0 : Cell) : Grid × Except GridError Int :=
  let c := if c0.index == -1 then { c0 with index := (g._cells.length : Int) } else c0
  let g1 := { g with _max_realized_cell_index := max g._max_realized_cell_index c.index }
  if g1._cells.any (fun c2 => c2.index == c.index) then
    (g1, .error .duplicateIndex)
  else
    ({ g1 with _cells := g1._cells ++ [c] }, .ok c.index)

/-- Grid::add_vertex (Grid.cpp lines 151-166), same shape as add_cell. -/
def Grid.add_vertex (g : Grid) (v0 : Vertex) : Grid × Except GridError Int :=
  let v := if v0.index == -1 then { v0 with index := (g._vertices.length : Int) } else v0
  let g1 := { g with _max_realized_vertex_index := max g._max_realized_vertex_index v.index }
  if g1._vertices.any (fun v2 => v2.index == v.index) then
    (g1, .error .duplicateIndex)
  else
    ({ g1 with _vertices := g1._vertices ++ [v] }, .ok v.index)

/-- Grid::clear (Grid.cpp lines 128-132): clears both collections and
nothing else. -/
def Grid.clear (g : Grid) : Grid := { g with _vertices := [], _cells := [] }

/-- Grid::filter_cells (Grid.cpp lines 498-539).  The full counts are
frozen to their current observed values; cells failing the predicate are
erased while the kept cells contribute their vertex indices to the
good-vertex set and their indices to the recomputed cell tracker
(restarted at -1); vertices whose index is not in the good-vertex set are
then erased, recomputing the vertex tracker likewise. -/
def Grid.filter_cells (g : Grid) (include_cell : Int → Bool) : Grid :=
  let ncf := g.ncells_full
  let nvf := g.nvertices_full
  let keptCells := g._cells.filter (fun c => include_cell c.index)
  let good_vertices : List Int :=
    (keptCells.map (fun c => c.vertices.map (fun v => v.index))).flatten
  let keptVertices := g._vertices.filter (fun v => good_vertices.contains v.index)
  { g with
    _ncells_full := ncf
    _nvertices_full := nvf
    _cells := keptCells
    _vertices := keptVertices
    _max_realized_cell_index := keptCells.foldl (fun m c => max m c.index) (-1)
    _max_realized_vertex_index := keptVertices.foldl (fun m v => max m v.index) (-1) }

/-- Loop of Grid::get_native_areas (Grid.cpp lines 451-453): store each
realized cell area at position cell.index of the dense array.  The call
area.at(cell.index) throws std::out_of_range when the index does not fit
the array, modelled as none. -/
def fillAreas : List (Option ℚ) → List Cell → Option (List (Option ℚ))
  | arr, [] => some arr
  | arr, c :: cs =>
    if 0 ≤ c.index ∧ c.index.toNat < arr.length then
      fillAreas (arr.set c.index.toNat (some c.area)) cs
    else
      none

/-- Grid::get_native_areas (Grid.cpp lines 447-456): a dense array of
length ncells_full is filled with NaN (modelled none) and then each
realized cell writes its area at its own index. -/
def Grid.get_native_areas (g : Grid) : Option (List (Option ℚ)) :=
  fillAreas (List.replicate g.ncells_full.toNat none) g._cells

/-- Grid::centroid (Grid.cpp lines 89-126).  For L0 the polygon centroid
formula is applied to the looked-up cell (the C++ code dereferences the
lookup result and the first vertex, so a missing cell or an empty polygon
is a failure, modelled none); for L1 the coordinates of the looked-up
vertex are returned. -/
def centroidFrom (first prev : Point) : List Point → ℚ × ℚ
  | [] => ((prev.1 + first.1) * cross prev first, (prev.2 + first.2) * cross prev first)
  | p :: ps =>
    let r := centroidFrom first p ps
    ((prev.1 + p.1) * cross prev p + r.1, (prev.2 + p.2) * cross prev p + r.2)

/-- Grid::centroid, continued: dispatch on the parameterization. -/
def Grid.centroid (g : Grid) (ix : Int) : Option Point :=
  match g.parameterization with
  | .l0 =>
    match g.get_cell ix with
    | none => none
    | some cell =>
      match cell.points with
      | [] => none
      | p :: ps =>
        let A := area_of_polygon (p :: ps)
        let s := centroidFrom p p ps
        let fact := 1 / (6 * A)
        some (s.1 * fact, s.2 * fact)
  | .l1 => (g.get_vertex ix).map (fun v => (v.x, v.y))

/-! Mesh Codec.  The netCDF file contents produced by Grid::netcdf_define
(attributes and dimensions, Grid.cpp lines 260-342) followed by the
deferred writer Grid::netcdf_write (array data, lines 196-256) are
modelled as one record. -/

/-- Record layout written by the codec for one grid: the scalar metadata
attributes of the info variable, plus the vertex table, the cell table and
the variable-length vertex-reference section.  The projection attribute is
written only when the coordinates are XY, hence an Option. -/
structure GridFile where
  version : Int := 1
  name : String
  typeTag : String
  coordinatesTag : String
  parameterizationTag : String
  sprojAtt : Option String
  cellsNumFull : Int
  verticesNumFull : Int
  verticesIndex : List Int
  verticesXY : List Point
  cellsIndex : List Int
  cellsIJK : List (Int × Int × Int)
  cellsArea : List ℚ
  vertexRefs : List Int
  vertexRefsStart : List Nat
deriving DecidableEq, Repr

/-- Modelled from the spec: the sorted() accessor of
giss::IndexedCollection (not under src/) returns the entities ordered by
index; netcdf_write writes vertices and cells in that order. -/
def sortVerticesByIndex (vs : List Vertex) : List Vertex :=
  vs.mergeSort (fun a b => decide (a.index ≤ b.index))

/-- Cells of the grid ordered by index, as written by netcdf_write. -/
def sortCellsByIndex (cs : List Cell) : List Cell :=
  cs.mergeSort (fun a b => decide (a.index ≤ b.index))

/-- Offsets written into cells.vertex_refs_start (Grid.cpp lines 244-255):
before the references of cell i are appended the running reference count
is recorded, and after the loop the total count is written as a final
sentinel, giving the partial sums of the per-cell reference counts. -/
def refsStarts : List Nat → List Nat
  | [] => [0]
  | n :: ns => 0 :: (refsStarts ns).map (fun m => m + n)

/-- Grid::netcdf_define and Grid::netcdf_write combined: the file record
for a grid.  Vertices and cells are emitted in index order; the
vertex-reference section is the concatenation, in cell order, of each
cell's ordered vertex indices. -/
def Grid.netcdf_write (g : Grid) : GridFile :=
  let vs := sortVerticesByIndex g._vertices
  let cs := sortCellsByIndex g._cells
  { name := g.name
    typeTag := g.type.str
    coordinatesTag := g.coordinates.str
    parameterizationTag := g.parameterization.str
    sprojAtt := if g.coordinates = .xy then some g.sproj else none
    cellsNumFull := g.ncells_full
    verticesNumFull := g.nvertices_full
    verticesIndex := vs.map (fun v => v.index)
    verticesXY := vs.map (fun v => (v.x, v.y))
    cellsIndex := cs.map (fun c => c.index)
    cellsIJK := cs.map (fun c => (c.i, c.j, c.k))
    cellsArea := cs.map (fun c => c.area)
    vertexRefs := (cs.map (fun c => c.vertices.map (fun v => v.index))).flatten
    vertexRefsStart := refsStarts (cs.map (fun c => c.vertices.length)) }

/-- Vertex-reading loop of Grid::read_from_netcdf (Grid.cpp lines
386-391): each (index, x, y) row is assembled into a Vertex and inserted
with add_vertex; a duplicate index aborts the read. -/
def readVertices : Grid → List (Int × Point) → Option Grid
  | g, [] => some g
  | g, (ix, p) :: rest =>
    let r := g.add_vertex { x := p.1, y := p.2, index := ix }
    match r.2 with
    | .ok _ => readVertices r.1 rest
    | .error _ => none

/-- Body of the cell-reading loop of Grid::read_from_netcdf (Grid.cpp
lines 408-426): row i of the cell table is assembled into a Cell, its
vertex list resolved through get_vertex on the slice
vertex_refs[start i, start (i+1)); a reference to an absent vertex
(DanglingReference) or a duplicate cell index aborts the read. -/
def readCell (f : GridFile) (g : Grid) (i : Nat) : Option Grid :=
  let index := f.cellsIndex.getD i 0
  let ijk := f.cellsIJK.getD i (0, 0, 0)
  let area := f.cellsArea.getD i 0
  let s0 := f.vertexRefsStart.getD i 0
  let s1 := f.vertexRefsStart.getD (i + 1) 0
  let refs := (f.vertexRefs.drop s0).take (s1 - s0)
  match refs.mapM (fun r => g.get_vertex r) with
  | none => none
  | some vlist =>
    let r := g.add_cell
      { index := index, i := ijk.1, j := ijk.2.1, k := ijk.2.2
        area := area, vertices := vlist }
    match r.2 with
    | .ok _ => some r.1
    | .error _ => none

/-- Cell-reading loop over the row numbers of the cell table. -/
def readCells (f : GridFile) : Grid → List Nat → Option Grid
  | g, [] => some g
  | g, i :: is =>
    match readCell f g i with
    | none => none
    | some g1 => readCells f g1 is

/-- Grid::read_from_netcdf (Grid.cpp lines 346-427): clear the
collections, restore the metadata (parse_enum fails on an unknown tag,
and an XY grid requires the projection attribute), then reconstruct the
vertices and finally the cells. -/
def Grid.read_from_netcdf (g : Grid) (f : GridFile) : Option Grid := do
  let g0 := g.clear
  let t ← parseGridType f.typeTag
  let co ← parseCoordinates f.coordinatesTag
  let pa ← parseParameterization f.parameterizationTag
  let sp ← match co with
    | .xy => f.sprojAtt
    | .lonlat => some ""
  let g1 := { g0 with
    name := f.name, type := t, coordinates := co, parameterization := pa
    sproj := sp, _ncells_full := f.cellsNumFull
    _nvertices_full := f.verticesNumFull }
  let g2 ← readVertices g1 (f.verticesIndex.zip f.verticesXY)
  readCells f g2 (List.range f.cellsIndex.length)

/-! Sparse Operator Builder (src/slib/icebin/eigen_types.cpp, to_eigen_M).
The accumulation machinery spsparse::SparseSet and MakeDenseEigenT is not
under src/ and is modelled from the spec. -/

/-- Modelled from the spec: spsparse::SparseSet, the native-to-dense
index-remapping table of one matrix axis.  Native indices are recorded in
first-seen order, the position in the list being the dense index; the
declared native extent is stored separately (sentinel -1 while unset). -/
structure SparseSetT where
  to_dense : List Int := []
  sparse_extent : Int := -1
deriving DecidableEq, Repr

/-- Modelled from the spec: dense position of a native index, assigned
lazily on first encounter (insertion order is first-seen order). -/
def SparseSetT.add_dense (s : SparseSetT) (ix : Int) : SparseSetT × Nat :=
  match s.to_dense.findIdx? (fun j => j == ix) with
  | some p => (s, p)
  | none => ({ s with to_dense := s.to_dense ++ [ix] }, s.to_dense.length)

/-- Number of distinct native indices seen so far. -/
def SparseSetT.dense_extent (s : SparseSetT) : Nat := s.to_dense.length

/-- Modelled from the spec: record the declared native extent of the
axis. -/
def SparseSetT.set_sparse_extent (s : SparseSetT) (n : Int) : SparseSetT :=
  { s with sparse_extent := n }

/-- Modelled from the spec: MakeDenseEigenT with the ADD_DENSE transform,
accumulating triples whose native indices are converted to dense indices
on arrival. -/
structure MakeDenseEigenT where
  dimRow : SparseSetT := {}
  dimCol : SparseSetT := {}
  triplets : List (Nat × Nat × ℚ) := []
deriving DecidableEq, Repr

/-- Modelled from the spec: BvA_m.M.add(index, value) converts both native
indices to dense positions and appends the weighted triple. -/
def MakeDenseEigenT.add (m : MakeDenseEigenT) (ix : Int × Int) (v : ℚ) :
    MakeDenseEigenT :=
  let r := m.dimRow.add_dense ix.1
  let c := m.dimCol.add_dense ix.2
  { dimRow := r.1, dimCol := c.1, triplets := m.triplets ++ [(r.2, c.2, v)] }

/-- Eigen sparse matrix built from triplets; duplicate positions sum. -/
structure EigenSparseMatrixT where
  rows : Nat
  cols : Nat
  triplets : List (Nat × Nat × ℚ)
deriving DecidableEq, Repr

/-- Entry of the built matrix: the sum of the weights of all triplets at
the given dense position (Eigen setFromTriplets accumulates duplicates). -/
def EigenSparseMatrixT.entry (m : EigenSparseMatrixT) (r c : Nat) : ℚ :=
  ((m.triplets.filter (fun t => t.1 == r && t.2.1 == c)).map
    (fun t => t.2.2)).sum

/-- Modelled from the spec: materialization of the accumulator into the
backend sparse format, shaped by the dense extents of the two axes. -/
def MakeDenseEigenT.to_eigen (m : MakeDenseEigenT) : EigenSparseMatrixT :=
  { rows := m.dimRow.dense_extent, cols := m.dimCol.dense_extent
    triplets := m.triplets }

/-- to_eigen_M (eigen_types.cpp lines 9-33): copy every triple of the
input relation into a fresh dense-indexing accumulator, then fix the two
axis extents to the declared shape, then materialize.  Returns the matrix
together with the two index-remapping tables (the dims side artifact). -/
def to_eigen_M (triples : List (Int × Int × ℚ)) (shape : Int × Int) :
    EigenSparseMatrixT × SparseSetT × SparseSetT :=
  let m0 : MakeDenseEigenT := {}
  let m1 := triples.foldl (fun m t => m.add (t.1, t.2.1) t.2.2) m0
  let dimRow := m1.dimRow.set_sparse_extent shape.1
  let dimCol := m1.dimCol.set_sparse_extent shape.2
  (({ m1 with dimRow := dimRow, dimCol := dimCol }).to_eigen, dimRow, dimCol)

/-! Concrete objects used by the spec examples. -/

/-- Vertices (0,0), (1,0), (1,1), (0,1) of the unit square, in order. -/
def squareVertices : List Vertex :=
  [⟨0, 0, 0⟩, ⟨1, 0, 1⟩, ⟨1, 1, 2⟩, ⟨0, 1, 3⟩]

/-- Single square cell over squareVertices. -/
def squareCell : Cell :=
  { index := 0, i := 0, j := 0, k := 0, area := 1, vertices := squareVertices }

/-- Cell-centered (L0) grid realizing the single square cell. -/
def squareGrid : Grid :=
  { type := .xy, coordinates := .xy, parameterization := .l0
    _vertices := squareVertices, _cells := [squareCell]
    _max_realized_cell_index := 0, _max_realized_vertex_index := 3 }

/-- Builder run of the spec example: triples (0,0,2), (0,0,3), (1,2,1)
with declared native extents (3,4). -/
def builderExample : EigenSparseMatrixT × SparseSetT × SparseSetT :=
  to_eigen_M [(0, 0, 2), (0, 0, 3), (1, 2, 1)] (3, 4)

/-- Tracker invariant for cells: _max_realized_cell_index dominates the
index of every realized cell. -/
def Grid.cellIndexInv (g : Grid) : Prop :=
  ∀ c ∈ g._cells, c.index ≤ g._max_realized_cell_index

/-- Tracker invariant for vertices. -/
def Grid.vertexIndexInv (g : Grid) : Prop :=
  ∀ v ∈ g._vertices, v.index ≤ g._max_realized_vertex_index

/-- Grid states reachable from a freshly constructed grid by any sequence
of add_vertex, add_cell and filter_cells operations (insertions that
throw DuplicateIndex still leave their mutated grid as the next state,
as the C++ object survives the throw). -/
inductive Reachable : Grid → Prop where
  | init (t : GridType) : Reachable (Grid.fresh t)
  | step_add_cell (g : Grid) (c : Cell) :
      Reachable g → Reachable (g.add_cell c).1
  | step_add_vertex (g : Grid) (v : Vertex) :
      Reachable g → Reachable (g.add_vertex v).1
  | step_filter (g : Grid) (P : Int → Bool) :
      Reachable g → Reachable (g.filter_cells P)

/-- Observable cell content named by the round-trip property: index, the
(i, j, k) tag, the stored area and the ordered vertex-index sequence. -/
def cellData (c : Cell) : Int × Int × Int × Int × ℚ × List Int :=
  (c.index, c.i, c.j, c.k, c.area, c.vertices.map (fun v => v.index))

/-- Grid holding one cell with explicit index 1 and nothing else. -/
def oneCellIndex1Grid : Grid :=
  ((Grid.fresh .generic).add_cell { index := 1 }).1

/-- Grid holding one vertex with explicit index 1 and nothing else. -/
def oneVertexIndex1Grid : Grid :=
  ((Grid.fresh .generic).add_vertex ⟨0, 0, 1⟩).1

/-- Grid holding one cell with explicit index 5 and nothing else; only one
cell is realized, so ncells_full collapses to 1 while the cell index does
not fit the dense array. -/
def sparseIndexGrid : Grid :=
  ((Grid.fresh .generic).add_cell { index := 5 }).1

end Glint2

namespace Glint2

/-! Theorems. -/

/-- Unfolding the incremental projected loop: it agrees with the plain
loop run on the transformed point list. -/
theorem projShoelaceFrom_eq_shoelaceFrom (proj : Point → Point)
    (first : Point) (ps : List Point) :
    ∀ prev : Point,
      projShoelaceFrom proj first prev ps =
        shoelaceFrom first prev (ps.map proj) := by
  induction ps with
  | nil => intro prev; rfl
  | cons p rest ih =>
    intro prev
    simp only [projShoelaceFrom, shoelaceFrom, List.map_cons, ih]

/-- C7: for every cell with at least one vertex and every coordinate
transform proj, area_of_proj_polygon equals area_of_polygon applied to
the polygon obtained by transforming each vertex through proj: the
incremental transformed variant and the transform-all-then-apply-formula
definitions agree. -/
theorem area_of_proj_polygon_eq_area_of_polygon_map
    (proj : Point → Point) (ps : List Point) (h : ps ≠ []) :
    area_of_proj_polygon proj ps = area_of_polygon (ps.map proj) := by
  cases ps with
  | nil => exact absurd rfl h
  | cons p rest =>
    simp only [area_of_proj_polygon, area_of_polygon, List.map_cons,
      projShoelaceFrom_eq_shoelaceFrom]

/-- Witness for C7: the agreement evaluated on a concrete triangle under
a concrete transform (axis swap). -/
theorem area_of_proj_polygon_eq_witness :
    (([(0, 0), (1, 0), (0, 1)] : List Point) ≠ []) ∧
      area_of_proj_polygon (fun p => (p.2, p.1)) [(0, 0), (1, 0), (0, 1)] =
        area_of_polygon
          (([(0, 0), (1, 0), (0, 1)] : List Point).map (fun p => (p.2, p.1))) :=
  ⟨by decide,
    area_of_proj_polygon_eq_area_of_polygon_map (fun p => (p.2, p.1))
      [(0, 0), (1, 0), (0, 1)] (by decide)⟩

/-- C6: the single square cell grid has signed area 1 by the Surveyor
formula (wrap-around pair included) and centroid (1/2, 1/2). -/
theorem square_area_and_centroid :
    area_of_polygon squareCell.points = 1 ∧
    squareGrid.centroid 0 = some (1 / 2, 1 / 2) := by
  constructor
  · norm_num [squareCell, squareVertices, Cell.points, area_of_polygon,
      shoelaceFrom, cross]
  · norm_num [squareGrid, squareCell, squareVertices, Grid.centroid,
      Grid.get_cell, Cell.points, area_of_polygon, shoelaceFrom,
      centroidFrom, cross, List.find?]

/-- C4: the builder example yields a 2 by 2 dense matrix, dense positions
in first-seen order (native rows 0,1 and native columns 0,2), summed
entry 5 at the dense position of native (0,0), entry 1 for native (1,2),
and the declared native extents (3,4) recorded on both axes. -/
theorem to_eigen_M_example :
    builderExample.1.rows = 2 ∧
    builderExample.1.cols = 2 ∧
    builderExample.2.1.to_dense = [0, 1] ∧
    builderExample.2.2.to_dense = [0, 2] ∧
    builderExample.1.entry 0 0 = 5 ∧
    builderExample.1.entry 1 1 = 1 ∧
    builderExample.2.1.sparse_extent = 3 ∧
    builderExample.2.2.sparse_extent = 4 := by
  refine ⟨rfl, rfl, rfl, rfl, ?_, ?_, rfl, rfl⟩
  · norm_num [builderExample, to_eigen_M, MakeDenseEigenT.add,
      MakeDenseEigenT.to_eigen, SparseSetT.add_dense,
      EigenSparseMatrixT.entry, List.findIdx?]
  · norm_num [builderExample, to_eigen_M, MakeDenseEigenT.add,
      MakeDenseEigenT.to_eigen, SparseSetT.add_dense,
      EigenSparseMatrixT.entry, List.findIdx?]

/-- Full counts are never negative: either the frozen value (checked
nonnegative by the getter) or a list length. -/
theorem ncells_full_nonneg (g : Grid) : 0 ≤ g.ncells_full := by
  unfold Grid.ncells_full Grid.ncells_realized
  split
  · assumption
  · exact Int.ofNat_nonneg _

/-- Vertex counterpart of ncells_full_nonneg. -/
theorem nvertices_full_nonneg (g : Grid) : 0 ≤ g.nvertices_full := by
  unfold Grid.nvertices_full Grid.nvertices_realized
  split
  · assumption
  · exact Int.ofNat_nonneg _

/-- Filtering freezes the stored full cell count to the observed value. -/
theorem filter_cells_ncells_full (g : Grid) (P : Int → Bool) :
    (g.filter_cells P).ncells_full = g.ncells_full := by
  have h := ncells_full_nonneg g
  have e : (g.filter_cells P)._ncells_full = g.ncells_full := rfl
  show (if 0 ≤ (g.filter_cells P)._ncells_full
      then (g.filter_cells P)._ncells_full
      else (g.filter_cells P).ncells_realized) = g.ncells_full
  rw [e, if_pos h]

/-- Filtering freezes the stored full vertex count to the observed
value. -/
theorem filter_cells_nvertices_full (g : Grid) (P : Int → Bool) :
    (g.filter_cells P).nvertices_full = g.nvertices_full := by
  have h := nvertices_full_nonneg g
  have e : (g.filter_cells P)._nvertices_full = g.nvertices_full := rfl
  show (if 0 ≤ (g.filter_cells P)._nvertices_full
      then (g.filter_cells P)._nvertices_full
      else (g.filter_cells P).nvertices_realized) = g.nvertices_full
  rw [e, if_pos h]

/-- C5: ncells_full and nvertices_full observed after filter_cells equal
the values observed immediately before the call, and any later
filter_cells leaves them unchanged as well, so they never decrease. -/
theorem filter_cells_preserves_full_counts (g : Grid) (P Q : Int → Bool) :
    (g.filter_cells P).ncells_full = g.ncells_full ∧
    (g.filter_cells P).nvertices_full = g.nvertices_full ∧
    ((g.filter_cells P).filter_cells Q).ncells_full = g.ncells_full ∧
    ((g.filter_cells P).filter_cells Q).nvertices_full = g.nvertices_full := by
  refine ⟨filter_cells_ncells_full g P, filter_cells_nvertices_full g P, ?_, ?_⟩
  · rw [filter_cells_ncells_full, filter_cells_ncells_full]
  · rw [filter_cells_nvertices_full, filter_cells_nvertices_full]

/-- C2: after filter_cells every remaining cell satisfies the predicate;
every vertex referenced by a kept cell survives; a vertex survives
exactly when some kept cell references its index; and a predicate
rejecting every cell empties both collections.  The hypothesis states
the C++ ownership model: cells reference vertices owned by the same
grid. -/
theorem filter_cells_integrity (g : Grid) (P : Int → Bool)
    (hwf : ∀ c ∈ g._cells, ∀ v ∈ c.vertices, v ∈ g._vertices) :
    (∀ c ∈ (g.filter_cells P)._cells, P c.index = true) ∧
    (∀ c ∈ (g.filter_cells P)._cells, ∀ v ∈ c.vertices,
        v ∈ (g.filter_cells P)._vertices) ∧
    (∀ i : Int,
        (∃ v ∈ (g.filter_cells P)._vertices, v.index = i) ↔
        (∃ c ∈ (g.filter_cells P)._cells, ∃ v ∈ c.vertices, v.index = i)) ∧
    ((∀ c ∈ g._cells, P c.index = false) →
        (g.filter_cells P)._cells = [] ∧ (g.filter_cells P)._vertices = []) := by
  have hc : (g.filter_cells P)._cells = g._cells.filter (fun c => P c.index) := rfl
  have hv : (g.filter_cells P)._vertices =
      g._vertices.filter (fun v =>
        ((g._cells.filter (fun c => P c.index)).map
          (fun c => c.vertices.map (fun v => v.index))).flatten.contains v.index) :=
    rfl
  refine ⟨?_, ?_, ?_, ?_⟩
  · intro c hcmem
    rw [hc] at hcmem
    exact (List.mem_filter.mp hcmem).2
  · intro c hcmem v hvmem
    rw [hc] at hcmem
    rw [hv]
    refine List.mem_filter.mpr ⟨hwf c (List.mem_filter.mp hcmem).1 v hvmem, ?_⟩
    simp only [List.elem_eq_mem, List.mem_flatten, decide_eq_true_eq]
    exact ⟨c.vertices.map (fun v => v.index),
      List.mem_map.mpr ⟨c, hcmem, rfl⟩, List.mem_map.mpr ⟨v, hvmem, rfl⟩⟩
  · intro i
    constructor
    · rintro ⟨v, hvmem, rfl⟩
      rw [hv] at hvmem
      obtain ⟨-, hgood⟩ := List.mem_filter.mp hvmem
      simp only [List.elem_eq_mem, List.mem_flatten, List.mem_map,
        decide_eq_true_eq] at hgood
      obtain ⟨-, ⟨c, hcmem, rfl⟩, hvin⟩ := hgood
      obtain ⟨w, hwmem, hwix⟩ := List.mem_map.mp hvin
      exact ⟨c, hc ▸ hcmem, w, hwmem, hwix⟩
    · rintro ⟨c, hcmem, w, hwmem, rfl⟩
      rw [hc] at hcmem
      refine ⟨w, ?_, rfl⟩
      rw [hv]
      refine List.mem_filter.mpr ⟨hwf c (List.mem_filter.mp hcmem).1 w hwmem, ?_⟩
      simp only [List.elem_eq_mem, List.mem_flatten, decide_eq_true_eq]
      exact ⟨c.vertices.map (fun v => v.index),
        List.mem_map.mpr ⟨c, hcmem, rfl⟩, List.mem_map.mpr ⟨w, hwmem, rfl⟩⟩
  · intro hall
    have hnil : g._cells.filter (fun c => P c.index) = [] := by
      rw [List.filter_eq_nil_iff]
      intro c hcmem
      simp [hall c hcmem]
    constructor
    · rw [hc, hnil]
    · rw [hv, hnil]
      simp

/-- Witness for C2: the integrity conclusions evaluated on the square
grid with the predicate keeping only cell index 0. -/
theorem filter_cells_integrity_witness :
    (∀ c ∈ squareGrid._cells, ∀ v ∈ c.vertices, v ∈ squareGrid._vertices) ∧
    ((∀ c ∈ (squareGrid.filter_cells (fun i => i == 0))._cells,
        (fun i => i == 0) c.index = true) ∧
      (∀ c ∈ (squareGrid.filter_cells (fun i => i == 0))._cells,
        ∀ v ∈ c.vertices,
          v ∈ (squareGrid.filter_cells (fun i => i == 0))._vertices) ∧
      (∀ i : Int,
        (∃ v ∈ (squareGrid.filter_cells (fun i => i == 0))._vertices,
          v.index = i) ↔
        (∃ c ∈ (squareGrid.filter_cells (fun i => i == 0))._cells,
          ∃ v ∈ c.vertices, v.index = i)) ∧
      ((∀ c ∈ squareGrid._cells, (fun i => i == 0) c.index = false) →
        (squareGrid.filter_cells (fun i => i == 0))._cells = [] ∧
        (squareGrid.filter_cells (fun i => i == 0))._vertices = [])) :=
  ⟨by decide, filter_cells_integrity squareGrid (fun i => i == 0) (by decide)⟩

/-- Counterexample for C3: a grid holding only the explicit cell index 1
rejects the next auto-assigned cell insertion, because the auto index
equals the collection size 1, which is already taken; the same happens
for a vertex with explicit index 1 and the next auto-assigned vertex.
So auto-assigned indices can collide with explicit indices already
present, for cells and for vertices alike. -/
theorem add_cell_auto_index_collides :
    oneCellIndex1Grid._cells.map (fun c => c.index) = [1] ∧
    (oneCellIndex1Grid.add_cell { index := -1 }).2 =
      Except.error GridError.duplicateIndex ∧
    oneVertexIndex1Grid._vertices.map (fun v => v.index) = [1] ∧
    (oneVertexIndex1Grid.add_vertex ⟨2, 2, -1⟩).2 =
      Except.error GridError.duplicateIndex := by
  refine ⟨rfl, rfl, rfl, rfl⟩

/-- Inversion of a successful auto-assigned insertion: the assigned index
is the previous collection size and the collection grows by one. -/
theorem add_cell_auto_ok (g : Grid) (c : Cell) (n : Int) (hc : c.index = -1)
    (hok : (g.add_cell c).2 = .ok n) :
    n = (g._cells.length : Int) ∧
      (g.add_cell c).1._cells.length = g._cells.length + 1 := by
  have h1 : (c.index == -1) = true := by simp [hc]
  simp only [Grid.add_cell, h1, if_true] at hok ⊢
  split at hok
  · exact absurd hok (by simp)
  · rename_i hdup
    simp only [Except.ok.injEq] at hok
    simp only [hdup, if_false]
    exact ⟨hok.symm, by simp⟩

/-- Inversion of a successful auto-assigned vertex insertion, symmetric
to add_cell_auto_ok. -/
theorem add_vertex_auto_ok (g : Grid) (v : Vertex) (n : Int)
    (hv : v.index = -1) (hok : (g.add_vertex v).2 = .ok n) :
    n = (g._vertices.length : Int) ∧
      (g.add_vertex v).1._vertices.length = g._vertices.length + 1 := by
  have h1 : (v.index == -1) = true := by simp [hv]
  simp only [Grid.add_vertex, h1, if_true] at hok ⊢
  split at hok
  · exact absurd hok (by simp)
  · rename_i hdup
    simp only [Except.ok.injEq] at hok
    simp only [hdup, if_false]
    exact ⟨hok.symm, by simp⟩

/-- C3 amended: inserting a cell or vertex with an explicit index already
present raises DuplicateIndex; a successful auto-assigned insertion of a
cell or of a vertex receives the current collection size as index and
grows the collection by one, so indices assigned by successive
successful auto insertions are strictly increasing, for cells and for
vertices alike; an auto-assigned index equal to an explicit index
already present raises DuplicateIndex instead of avoiding it. -/
theorem add_cell_index_rules (g : Grid) :
    (∀ c : Cell, c.index ≠ -1 → (∃ c0 ∈ g._cells, c0.index = c.index) →
      (g.add_cell c).2 = .error .duplicateIndex) ∧
    (∀ v : Vertex, v.index ≠ -1 → (∃ v0 ∈ g._vertices, v0.index = v.index) →
      (g.add_vertex v).2 = .error .duplicateIndex) ∧
    (∀ c : Cell, c.index = -1 →
      (∀ c0 ∈ g._cells, c0.index ≠ (g._cells.length : Int)) →
      (g.add_cell c).2 = .ok (g._cells.length : Int) ∧
      (g.add_cell c).1._cells.length = g._cells.length + 1) ∧
    (∀ c c2 : Cell, ∀ n1 n2 : Int, c.index = -1 → c2.index = -1 →
      (g.add_cell c).2 = .ok n1 →
      ((g.add_cell c).1.add_cell c2).2 = .ok n2 →
      n1 < n2) ∧
    (∀ v : Vertex, v.index = -1 →
      (∀ v0 ∈ g._vertices, v0.index ≠ (g._vertices.length : Int)) →
      (g.add_vertex v).2 = .ok (g._vertices.length : Int) ∧
      (g.add_vertex v).1._vertices.length = g._vertices.length + 1) ∧
    (∀ v v2 : Vertex, ∀ n1 n2 : Int, v.index = -1 → v2.index = -1 →
      (g.add_vertex v).2 = .ok n1 →
      ((g.add_vertex v).1.add_vertex v2).2 = .ok n2 →
      n1 < n2) := by
  refine ⟨?_, ?_, ?_, ?_, ?_, ?_⟩
  · rintro c hne ⟨c0, hmem, hidx⟩
    have h1 : (c.index == -1) = false := beq_eq_false_iff_ne.mpr hne
    have hany : g._cells.any (fun c2 => c2.index == c.index) = true :=
      List.any_eq_true.mpr ⟨c0, hmem, by simp [hidx]⟩
    simp [Grid.add_cell, h1, hany]
  · rintro v hne ⟨v0, hmem, hidx⟩
    have h1 : (v.index == -1) = false := beq_eq_false_iff_ne.mpr hne
    have hany : g._vertices.any (fun v2 => v2.index == v.index) = true :=
      List.any_eq_true.mpr ⟨v0, hmem, by simp [hidx]⟩
    simp [Grid.add_vertex, h1, hany]
  · intro c hc hnot
    have h1 : (c.index == -1) = true := by simp [hc]
    have hany : g._cells.any
        (fun c2 => c2.index == (g._cells.length : Int)) = false := by
      rw [List.any_eq_false]
      intro c0 hc0
      simpa using hnot c0 hc0
    simp [Grid.add_cell, h1, hany]
  · intro c c2 n1 n2 hc hc2 hok1 hok2
    obtain ⟨he1, hl1⟩ := add_cell_auto_ok g c n1 hc hok1
    obtain ⟨he2, -⟩ := add_cell_auto_ok (g.add_cell c).1 c2 n2 hc2 hok2
    rw [he1, he2, hl1]
    exact_mod_cast Nat.lt_succ_self g._cells.length
  · intro v hv hnot
    have h1 : (v.index == -1) = true := by simp [hv]
    have hany : g._vertices.any
        (fun v2 => v2.index == (g._vertices.length : Int)) = false := by
      rw [List.any_eq_false]
      intro v0 hv0
      simpa using hnot v0 hv0
    simp [Grid.add_vertex, h1, hany]
  · intro v v2 n1 n2 hv hv2 hok1 hok2
    obtain ⟨he1, hl1⟩ := add_vertex_auto_ok g v n1 hv hok1
    obtain ⟨he2, -⟩ := add_vertex_auto_ok (g.add_vertex v).1 v2 n2 hv2 hok2
    rw [he1, he2, hl1]
    exact_mod_cast Nat.lt_succ_self g._vertices.length

/-- Witness for C3 amended: the rules evaluated on the square grid (one
cell of index 0, vertices 0 to 3), exercising the duplicate, the
auto-assignment and the strict-increase parts for cells and vertices. -/
theorem add_cell_index_rules_witness :
    (squareGrid.add_cell { index := 0 }).2 = .error .duplicateIndex ∧
    (squareGrid.add_vertex ⟨5, 5, 2⟩).2 = .error .duplicateIndex ∧
    ((squareGrid.add_cell { index := -1 }).2 =
        .ok (squareGrid._cells.length : Int) ∧
      (squareGrid.add_cell { index := -1 }).1._cells.length =
        squareGrid._cells.length + 1) ∧
    (1 : Int) < 2 ∧
    ((squareGrid.add_vertex ⟨9, 9, -1⟩).2 =
        .ok (squareGrid._vertices.length : Int) ∧
      (squareGrid.add_vertex ⟨9, 9, -1⟩).1._vertices.length =
        squareGrid._vertices.length + 1) ∧
    (4 : Int) < 5 := by
  obtain ⟨hA, hB, hC, hD, hE, hF⟩ := add_cell_index_rules squareGrid
  refine ⟨hA { index := 0 } (by decide) (by decide),
    hB ⟨5, 5, 2⟩ (by decide) ?_,
    hC { index := -1 } rfl (by decide),
    hD { index := -1 } { index := -1 } 1 2 rfl rfl rfl rfl,
    hE ⟨9, 9, -1⟩ rfl (by decide),
    hF ⟨9, 9, -1⟩ ⟨8, 8, -1⟩ 4 5 rfl rfl rfl rfl⟩
  exact ⟨⟨1, 1, 2⟩, by decide, rfl⟩

/-- Folding max over a list never goes below the start value. -/
theorem le_foldl_max {α : Type} (f : α → Int) :
    ∀ (l : List α) (a : Int), a ≤ l.foldl (fun m x => max m (f x)) a
  | [], a => le_refl a
  | x :: l, a =>
    le_trans (le_max_left a (f x)) (le_foldl_max f l (max a (f x)))

/-- Folding max over a list dominates the value of every member. -/
theorem mem_le_foldl_max {α : Type} (f : α → Int) :
    ∀ (l : List α) (a : Int) (x : α), x ∈ l →
      f x ≤ l.foldl (fun m y => max m (f y)) a := by
  intro l
  induction l with
  | nil => intro a x hx; exact absurd hx (List.not_mem_nil x)
  | cons y l ih =>
    intro a x hx
    rcases List.mem_cons.mp hx with h | h
    · subst h
      exact le_trans (le_max_right a (f x)) (le_foldl_max f l (max a (f x)))
    · exact ih (max a (f y)) x h

/-- Shape of any add_cell outcome: vertices and the vertex tracker are
untouched, the cell tracker becomes a max with the index of the inserted
candidate, and the cell collection is either unchanged (duplicate) or
extended by exactly the candidate. -/
theorem add_cell_shape (g : Grid) (c : Cell) :
    (g.add_cell c).1._vertices = g._vertices ∧
    (g.add_cell c).1._max_realized_vertex_index =
      g._max_realized_vertex_index ∧
    ∃ ix : Int,
      (g.add_cell c).1._max_realized_cell_index =
        max g._max_realized_cell_index ix ∧
      ((g.add_cell c).1._cells = g._cells ∨
        ∃ c1 : Cell, c1.index = ix ∧
          (g.add_cell c).1._cells = g._cells ++ [c1]) := by
  simp only [Grid.add_cell]
  by_cases hauto : (c.index == -1) = true
  · simp only [if_pos hauto]
    split
    · exact ⟨rfl, rfl, (g._cells.length : Int), rfl, Or.inl rfl⟩
    · exact ⟨rfl, rfl, (g._cells.length : Int), rfl, Or.inr ⟨_, rfl, rfl⟩⟩
  · simp only [if_neg hauto]
    split
    · exact ⟨rfl, rfl, c.index, rfl, Or.inl rfl⟩
    · exact ⟨rfl, rfl, c.index, rfl, Or.inr ⟨c, rfl, rfl⟩⟩

/-- Shape of any add_vertex outcome, symmetric to add_cell_shape. -/
theorem add_vertex_shape (g : Grid) (v : Vertex) :
    (g.add_vertex v).1._cells = g._cells ∧
    (g.add_vertex v).1._max_realized_cell_index =
      g._max_realized_cell_index ∧
    ∃ ix : Int,
      (g.add_vertex v).1._max_realized_vertex_index =
        max g._max_realized_vertex_index ix ∧
      ((g.add_vertex v).1._vertices = g._vertices ∨
        ∃ v1 : Vertex, v1.index = ix ∧
          (g.add_vertex v).1._vertices = g._vertices ++ [v1]) := by
  simp only [Grid.add_vertex]
  by_cases hauto : (v.index == -1) = true
  · simp only [if_pos hauto]
    split
    · exact ⟨rfl, rfl, (g._vertices.length : Int), rfl, Or.inl rfl⟩
    · exact ⟨rfl, rfl, (g._vertices.length : Int), rfl, Or.inr ⟨_, rfl, rfl⟩⟩
  · simp only [if_neg hauto]
    split
    · exact ⟨rfl, rfl, v.index, rfl, Or.inl rfl⟩
    · exact ⟨rfl, rfl, v.index, rfl, Or.inr ⟨v, rfl, rfl⟩⟩

/-- C9: in every grid state reachable from a fresh grid by add_vertex,
add_cell and filter_cells, the tracker _max_realized_cell_index dominates
the index of every realized cell and _max_realized_vertex_index the index
of every realized vertex. -/
theorem reachable_tracker_invariant (g : Grid) (h : Reachable g) :
    g.cellIndexInv ∧ g.vertexIndexInv := by
  induction h with
  | init t =>
    constructor <;> intro x hx <;> exact absurd hx (List.not_mem_nil x)
  | step_add_cell g c hg ih =>
    obtain ⟨ihc, ihv⟩ := ih
    obtain ⟨hV, hMV, ix, hM, hC⟩ := add_cell_shape g c
    constructor
    · intro x hx
      rw [hM]
      rcases hC with h | ⟨c1, hc1, h⟩
      · rw [h] at hx
        exact le_trans (ihc x hx) (le_max_left _ _)
      · rw [h] at hx
        rcases List.mem_append.mp hx with h2 | h2
        · exact le_trans (ihc x h2) (le_max_left _ _)
        · rw [List.mem_singleton.mp h2, hc1]
          exact le_max_right _ _
    · intro x hx
      rw [hV] at hx
      rw [hMV]
      exact ihv x hx
  | step_add_vertex g v hg ih =>
    obtain ⟨ihc, ihv⟩ := ih
    obtain ⟨hC, hMC, ix, hM, hV⟩ := add_vertex_shape g v
    constructor
    · intro x hx
      rw [hC] at hx
      rw [hMC]
      exact ihc x hx
    · intro x hx
      rw [hM]
      rcases hV with h | ⟨v1, hv1, h⟩
      · rw [h] at hx
        exact le_trans (ihv x hx) (le_max_left _ _)
      · rw [h] at hx
        rcases List.mem_append.mp hx with h2 | h2
        · exact le_trans (ihv x h2) (le_max_left _ _)
        · rw [List.mem_singleton.mp h2, hv1]
          exact le_max_right _ _
  | step_filter g P hg ih =>
    constructor
    · intro x hx
      exact mem_le_foldl_max (fun c => c.index) _ (-1) x hx
    · intro x hx
      exact mem_le_foldl_max (fun v => v.index) _ (-1) x hx

/-- Witness for C9: the invariant on the concrete reachable state built
by one explicit insertion into a fresh grid. -/
theorem reachable_tracker_invariant_witness :
    oneCellIndex1Grid.cellIndexInv ∧ oneCellIndex1Grid.vertexIndexInv :=
  reachable_tracker_invariant oneCellIndex1Grid
    (Reachable.step_add_cell (Grid.fresh .generic) { index := 1 }
      (Reachable.init .generic))

/-- C10: under the tracker invariant, inserting a cell or vertex with an
explicit index already present raises DuplicateIndex and returns the grid
observably unchanged: the collections are untouched and the tracker keeps
its prior value, because the colliding index is already dominated by the
tracker even though the code updates the tracker before the duplicate
check. -/
theorem add_duplicate_is_noop (g : Grid) :
    (∀ c : Cell, g.cellIndexInv → c.index ≠ -1 →
      (∃ c0 ∈ g._cells, c0.index = c.index) →
      g.add_cell c = (g, .error .duplicateIndex)) ∧
    (∀ v : Vertex, g.vertexIndexInv → v.index ≠ -1 →
      (∃ v0 ∈ g._vertices, v0.index = v.index) →
      g.add_vertex v = (g, .error .duplicateIndex)) := by
  constructor
  · rintro c hinv hne ⟨c0, hmem, hidx⟩
    have h1 : (c.index == -1) = false := beq_eq_false_iff_ne.mpr hne
    have hle : c.index ≤ g._max_realized_cell_index := hidx ▸ hinv c0 hmem
    have hany : g._cells.any (fun c2 => c2.index == c.index) = true :=
      List.any_eq_true.mpr ⟨c0, hmem, by simp [hidx]⟩
    simp [Grid.add_cell, h1, hany, max_eq_left hle]
  · rintro v hinv hne ⟨v0, hmem, hidx⟩
    have h1 : (v.index == -1) = false := beq_eq_false_iff_ne.mpr hne
    have hle : v.index ≤ g._max_realized_vertex_index := hidx ▸ hinv v0 hmem
    have hany : g._vertices.any (fun v2 => v2.index == v.index) = true :=
      List.any_eq_true.mpr ⟨v0, hmem, by simp [hidx]⟩
    simp [Grid.add_vertex, h1, hany, max_eq_left hle]

/-- Witness for C10: a duplicate cell and a duplicate vertex insertion on
the square grid leave it exactly as it was. -/
theorem add_duplicate_is_noop_witness :
    squareGrid.add_cell { index := 0 } =
      (squareGrid, .error .duplicateIndex) ∧
    squareGrid.add_vertex ⟨7, 7, 3⟩ =
      (squareGrid, .error .duplicateIndex) :=
  ⟨(add_duplicate_is_noop squareGrid).1 { index := 0 }
      (by unfold Grid.cellIndexInv; decide) (by decide)
      ⟨squareCell, by decide, rfl⟩,
    (add_duplicate_is_noop squareGrid).2 ⟨7, 7, 3⟩
      (by unfold Grid.vertexIndexInv; decide) (by decide)
      ⟨⟨0, 1, 3⟩, by decide, rfl⟩⟩

/-- Counterexample for C8: a grid holding a single cell with explicit
index 5 has ncells_full equal to 1 (only one cell was ever realized), so
the dense array has length 1 and storing at position 5 throws
out_of_range: get_native_areas returns no array at all. -/
theorem get_native_areas_out_of_range :
    sparseIndexGrid.ncells_full = 1 ∧
    sparseIndexGrid.get_native_areas = none := by
  constructor <;> rfl

/-- Behaviour of the area-filling loop when every cell index fits the
array and the indices are distinct. -/
theorem fillAreas_spec :
    ∀ (cs : List Cell) (arr : List (Option ℚ)),
      (∀ c ∈ cs, 0 ≤ c.index ∧ c.index.toNat < arr.length) →
      (cs.map (fun c => c.index)).Nodup →
      ∃ arr2, fillAreas arr cs = some arr2 ∧
        arr2.length = arr.length ∧
        (∀ c ∈ cs, arr2[c.index.toNat]? = some (some c.area)) ∧
        (∀ i : Nat, (∀ c ∈ cs, c.index.toNat ≠ i) → arr2[i]? = arr[i]?) := by
  intro cs
  induction cs with
  | nil =>
    intro arr hb hnd
    exact ⟨arr, rfl, rfl, by intro c hc; exact absurd hc (List.not_mem_nil c),
      fun i hi => rfl⟩
  | cons c cs ih =>
    intro arr hb hnd
    obtain ⟨hc0, hclt⟩ := hb c (List.mem_cons_self c cs)
    have hset : (arr.set c.index.toNat (some c.area)).length = arr.length := by
      simp
    have hnd2 : (∀ x ∈ cs, ¬x.index = c.index) ∧
        (cs.map (fun c => c.index)).Nodup := by simpa using hnd
    obtain ⟨arr2, hrun, hlen, hmem, hrest⟩ :=
      ih (arr.set c.index.toNat (some c.area))
        (by
          intro c2 hc2
          obtain ⟨h1, h2⟩ := hb c2 (List.mem_cons_of_mem c hc2)
          exact ⟨h1, by rw [hset]; exact h2⟩)
        hnd2.2
    have hne : ∀ c2 ∈ cs, c2.index.toNat ≠ c.index.toNat := by
      intro c2 hc2
      have h1 := (hb c2 (List.mem_cons_of_mem c hc2)).1
      have h2 : c2.index ≠ c.index := hnd2.1 c2 hc2
      omega
    refine ⟨arr2, ?_, by rw [hlen, hset], ?_, ?_⟩
    · show fillAreas arr (c :: cs) = some arr2
      unfold fillAreas
      rw [if_pos ⟨hc0, hclt⟩]
      exact hrun
    · intro c2 hc2
      rcases List.mem_cons.mp hc2 with h | h
      · subst h
        rw [hrest c2.index.toNat (fun c3 hc3 => hne c3 hc3)]
        rw [List.getElem?_set_self]
        exact hclt
      · exact hmem c2 h
    · intro i hi
      rw [hrest i (fun c3 hc3 => hi c3 (List.mem_cons_of_mem c hc3))]
      exact List.getElem?_set_ne (hi c (List.mem_cons_self c cs))

/-- C8 amended: whenever every realized cell index lies within
[0, ncells_full) and the realized cell indices are distinct (as add_cell
guarantees), get_native_areas returns an array of length exactly
ncells_full whose entry at position c.index is the stored area of c for
every realized cell c, and NaN (modelled none) at every other position. -/
theorem get_native_areas_spec (g : Grid)
    (hb : ∀ c ∈ g._cells, 0 ≤ c.index ∧ c.index < g.ncells_full)
    (hnd : (g._cells.map (fun c => c.index)).Nodup) :
    ∃ arr, g.get_native_areas = some arr ∧
      arr.length = g.ncells_full.toNat ∧
      (∀ c ∈ g._cells, arr[c.index.toNat]? = some (some c.area)) ∧
      (∀ i : Nat, i < arr.length → (∀ c ∈ g._cells, c.index.toNat ≠ i) →
        arr[i]? = some none) := by
  have hlen : (List.replicate g.ncells_full.toNat (none : Option ℚ)).length =
      g.ncells_full.toNat := by simp
  obtain ⟨arr, hrun, hl, hmem, hrest⟩ :=
    fillAreas_spec g._cells (List.replicate g.ncells_full.toNat none)
      (by
        intro c hc
        obtain ⟨h1, h2⟩ := hb c hc
        refine ⟨h1, ?_⟩
        rw [hlen]
        omega)
      hnd
  refine ⟨arr, hrun, by rw [hl, hlen], hmem, ?_⟩
  intro i hilt hi
  rw [hrest i hi]
  rw [List.getElem?_replicate]
  rw [if_pos]
  rw [hl, hlen] at hilt
  exact hilt

/-- Witness for C8 amended: the dense area array of the square grid. -/
theorem get_native_areas_spec_witness :
    (∀ c ∈ squareGrid._cells, 0 ≤ c.index ∧ c.index < squareGrid.ncells_full) ∧
    (∃ arr, squareGrid.get_native_areas = some arr ∧
      arr.length = squareGrid.ncells_full.toNat ∧
      (∀ c ∈ squareGrid._cells, arr[c.index.toNat]? = some (some c.area)) ∧
      (∀ i : Nat, i < arr.length →
        (∀ c ∈ squareGrid._cells, c.index.toNat ≠ i) →
        arr[i]? = some none)) :=
  ⟨by decide, get_native_areas_spec squareGrid (by decide) (by decide)⟩

/-- With distinct indices, looking a member vertex up by its own index
returns exactly that vertex. -/
theorem find?_vertex_eq (l : List Vertex) (v : Vertex)
    (hnd : (l.map (fun w => w.index)).Nodup) (hv : v ∈ l) :
    l.find? (fun w => w.index == v.index) = some v := by
  induction l with
  | nil => exact absurd hv (List.not_mem_nil v)
  | cons w l ih =>
    have hnd2 : (∀ x ∈ l, ¬x.index = w.index) ∧
        (l.map (fun x => x.index)).Nodup := by simpa using hnd
    rcases List.mem_cons.mp hv with h | h
    · subst h
      rw [List.find?_cons_of_pos]
      simp
    · rw [List.find?_cons_of_neg]
      · exact ih hnd2.2 h
      · simp only [beq_iff_eq]
        exact fun he => hnd2.1 v h he.symm

/-- Resolving the index list of vertices that the grid can look up
returns the original vertex list. -/
theorem mapM_get_vertex (g : Grid) (vs : List Vertex)
    (h : ∀ v ∈ vs, g.get_vertex v.index = some v) :
    (vs.map (fun v => v.index)).mapM (fun r => g.get_vertex r) = some vs := by
  induction vs with
  | nil => rfl
  | cons v vs ih =>
    rw [List.map_cons, List.mapM_cons]
    rw [h v (List.mem_cons_self v vs)]
    rw [ih (fun w hw => h w (List.mem_cons_of_mem v hw))]
    rfl

/-- Offsets array lookup: position k of refsStarts is the sum of the
first k lengths. -/
theorem refsStarts_getElem :
    ∀ (ns : List Nat) (k : Nat), k ≤ ns.length →
      (refsStarts ns)[k]? = some ((ns.take k).sum) := by
  intro ns
  induction ns with
  | nil =>
    intro k hk
    have h0 : k = 0 := Nat.le_zero.mp hk
    subst h0
    rfl
  | cons n ns ih =>
    intro k hk
    have he : refsStarts (n :: ns) =
        0 :: (refsStarts ns).map (fun m => m + n) := rfl
    cases k with
    | zero => simp [he]
    | succ k =>
      rw [he, List.getElem?_cons_succ, List.getElem?_map,
        ih k (Nat.le_of_succ_le_succ hk)]
      simp [List.take_succ_cons, Nat.add_comm]

/-- getD form of refsStarts_getElem. -/
theorem refsStarts_getD (ns : List Nat) (k : Nat) (hk : k ≤ ns.length) :
    (refsStarts ns).getD k 0 = (ns.take k).sum := by
  simp [List.getD, refsStarts_getElem ns k hk]

/-- Slicing the flat concatenation at the offset of a middle list
recovers exactly that list. -/
theorem flatten_segment :
    ∀ (l1 : List (List Int)) (a : List Int) (l2 : List (List Int)),
      ((l1 ++ a :: l2).flatten.drop ((l1.map List.length).sum)).take a.length
        = a := by
  intro l1
  induction l1 with
  | nil =>
    intro a l2
    simp
  | cons x l1 ih =>
    intro a l2
    simp only [List.cons_append, List.flatten_cons, List.map_cons,
      List.sum_cons, List.drop_append]
    exact ih a l2

/-- Element of an appended list at the position right after the prefix. -/
theorem getD_append_cons {α : Type} :
    ∀ (l1 : List α) (a : α) (l2 : List α) (d : α),
      (l1 ++ a :: l2).getD l1.length d = a := by
  intro l1
  induction l1 with
  | nil => intro a l2 d; rfl
  | cons x l1 ih =>
    intro a l2 d
    simp only [List.cons_append, List.length_cons, List.getD_cons_succ]
    exact ih a l2 d

/-- Running the vertex-reading loop on rows rebuilt from a vertex list
with fresh indices appends exactly that list to the vertex collection
and leaves everything else alone. -/
theorem readVertices_run :
    ∀ (vs : List Vertex) (g : Grid),
      (∀ v ∈ vs, v.index ≠ -1) →
      ((g._vertices ++ vs).map (fun v => v.index)).Nodup →
      ∃ g2,
        readVertices g (vs.map (fun v => (v.index, (v.x, v.y)))) = some g2 ∧
        g2._vertices = g._vertices ++ vs ∧ g2._cells = g._cells := by
  intro vs
  induction vs with
  | nil =>
    intro g h1 h2
    exact ⟨g, rfl, by simp, rfl⟩
  | cons v vs ih =>
    intro g h1 h2
    have hne : (v.index == -1) = false :=
      beq_eq_false_iff_ne.mpr (h1 v (List.mem_cons_self v vs))
    have hmap : ((g._vertices.map (fun w => w.index)) ++
        ((v :: vs).map (fun w => w.index))).Nodup := by
      rw [← List.map_append]
      exact h2
    have hnotin : v.index ∉ g._vertices.map (fun w => w.index) := by
      have hd := (List.nodup_append.mp hmap).2.2
      intro hmem
      exact hd hmem (by simp)
    have hany : g._vertices.any (fun v2 => v2.index == v.index) = false := by
      rw [List.any_eq_false]
      intro w hw
      simp only [beq_iff_eq]
      intro he
      exact hnotin (List.mem_map.mpr ⟨w, hw, he⟩)
    have heta : ({ x := v.x, y := v.y, index := v.index } : Vertex) = v := rfl
    have hadd2 : (g.add_vertex { x := v.x, y := v.y, index := v.index }).2 =
        .ok v.index := by
      simp [Grid.add_vertex, hne, hany]
    have haddv :
        (g.add_vertex { x := v.x, y := v.y, index := v.index }).1._vertices =
          g._vertices ++ [v] := by
      simp [Grid.add_vertex, hne, hany, heta]
    have haddc :
        (g.add_vertex { x := v.x, y := v.y, index := v.index }).1._cells =
          g._cells := by
      simp [Grid.add_vertex, hne, hany]
    have hstep : readVertices g ((v :: vs).map (fun w => (w.index, (w.x, w.y)))) =
        readVertices (g.add_vertex { x := v.x, y := v.y, index := v.index }).1
          (vs.map (fun w => (w.index, (w.x, w.y)))) := by
      simp only [List.map_cons, readVertices]
      rw [hadd2]
    obtain ⟨g2, hrun, hv2, hc2⟩ :=
      ih (g.add_vertex { x := v.x, y := v.y, index := v.index }).1
        (fun w hw => h1 w (List.mem_cons_of_mem v hw))
        (by rw [haddv, List.append_assoc, List.singleton_append]; exact h2)
    refine ⟨g2, ?_, ?_, ?_⟩
    · rw [hstep]
      exact hrun
    · rw [hv2, haddv, List.append_assoc, List.singleton_append]
    · rw [hc2, haddc]

/-- Running the cell-reading loop of the decoder over the rows of a file
produced from the cell list cs rebuilds exactly cs, provided the grid
under construction can resolve every vertex reference. -/
theorem readCells_run (f : GridFile) (cs : List Cell)
    (hidx : f.cellsIndex = cs.map (fun c => c.index))
    (hijk : f.cellsIJK = cs.map (fun c => (c.i, c.j, c.k)))
    (harea : f.cellsArea = cs.map (fun c => c.area))
    (hrefs : f.vertexRefs =
      (cs.map (fun c => c.vertices.map (fun v => v.index))).flatten)
    (hstart : f.vertexRefsStart =
      refsStarts (cs.map (fun c => c.vertices.length)))
    (hno : ∀ c ∈ cs, c.index ≠ -1)
    (hnd : (cs.map (fun c => c.index)).Nodup) :
    ∀ (todo done : List Cell) (g : Grid),
      cs = done ++ todo →
      g._cells = done →
      (∀ c ∈ todo, ∀ v ∈ c.vertices, g.get_vertex v.index = some v) →
      ∃ g2, readCells f g (List.range' done.length todo.length) = some g2 ∧
        g2._cells = cs ∧ g2._vertices = g._vertices := by
  intro todo
  induction todo with
  | nil =>
    intro done g hsplit hdone hres
    have hr : List.range' done.length ([] : List Cell).length = [] := rfl
    rw [hr]
    exact ⟨g, rfl, by rw [hdone, hsplit, List.append_nil], rfl⟩
  | cons c todo ih =>
    intro done g hsplit hdone hres
    have hcin : c ∈ cs := by
      rw [hsplit]
      exact List.mem_append_right _ (List.mem_cons_self c todo)
    have hrange : List.range' done.length (c :: todo).length =
        done.length :: List.range' (done.length + 1) todo.length := by
      rw [List.length_cons]
      exact List.range'_succ done.length todo.length 1
    have hlmap : (done.map (fun c => c.index)).length = done.length :=
      List.length_map done _
    have hgidx : f.cellsIndex.getD done.length 0 = c.index := by
      rw [hidx, hsplit, List.map_append, List.map_cons, ← hlmap]
      exact getD_append_cons _ _ _ _
    have hgijk : f.cellsIJK.getD done.length (0, 0, 0) = (c.i, c.j, c.k) := by
      rw [hijk, hsplit, List.map_append, List.map_cons,
        ← List.length_map done (fun c => (c.i, c.j, c.k))]
      exact getD_append_cons _ _ _ _
    have hgarea : f.cellsArea.getD done.length 0 = c.area := by
      rw [harea, hsplit, List.map_append, List.map_cons,
        ← List.length_map done (fun c => c.area)]
      exact getD_append_cons _ _ _ _
    have hlensplit : cs.map (fun c => c.vertices.length) =
        done.map (fun c => c.vertices.length) ++
          c.vertices.length :: todo.map (fun c => c.vertices.length) := by
      rw [hsplit, List.map_append, List.map_cons]
    have hlenlen : (done.map (fun c => c.vertices.length)).length =
        done.length := List.length_map done _
    have hbound : done.length ≤ (cs.map (fun c => c.vertices.length)).length := by
      rw [List.length_map, hsplit, List.length_append]
      omega
    have hbound1 : done.length + 1 ≤
        (cs.map (fun c => c.vertices.length)).length := by
      rw [List.length_map, hsplit, List.length_append, List.length_cons]
      omega
    have hs0 : f.vertexRefsStart.getD done.length 0 =
        (done.map (fun c => c.vertices.length)).sum := by
      rw [hstart, refsStarts_getD _ _ hbound, hlensplit, ← hlenlen,
        List.take_left]
    have hs1 : f.vertexRefsStart.getD (done.length + 1) 0 =
        (done.map (fun c => c.vertices.length)).sum + c.vertices.length := by
      rw [hstart, refsStarts_getD _ _ hbound1, hlensplit, ← hlenlen,
        List.take_append 1]
      simp
    have hslice :
        (f.vertexRefs.drop (f.vertexRefsStart.getD done.length 0)).take
          (f.vertexRefsStart.getD (done.length + 1) 0 -
            f.vertexRefsStart.getD done.length 0) =
          c.vertices.map (fun v => v.index) := by
      rw [hs0, hs1,
        Nat.add_sub_cancel_left (done.map (fun c => c.vertices.length)).sum
          c.vertices.length]
      rw [hrefs, hsplit, List.map_append, List.map_cons]
      have hmm : ((done.map (fun c => c.vertices.map (fun v => v.index))).map
          List.length) = done.map (fun c => c.vertices.length) := by
        rw [List.map_map]
        apply List.map_congr_left
        intro x hx
        simp
      rw [← hmm, ← List.length_map c.vertices (fun v => v.index)]
      exact flatten_segment _ _ _
    have hmapM : (c.vertices.map (fun v => v.index)).mapM
        (fun r => g.get_vertex r) = some c.vertices :=
      mapM_get_vertex g c.vertices (hres c (List.mem_cons_self c todo))
    have hne : (c.index == -1) = false :=
      beq_eq_false_iff_ne.mpr (hno c hcin)
    have hanyc : g._cells.any (fun c2 => c2.index == c.index) = false := by
      rw [List.any_eq_false]
      intro c2 hc2
      simp only [beq_iff_eq]
      intro he
      rw [hdone] at hc2
      have hnd2 : (done.map (fun c => c.index) ++
          (c :: todo).map (fun c => c.index)).Nodup := by
        rw [← List.map_append, ← hsplit]
        exact hnd
      have hd := (List.nodup_append.mp hnd2).2.2
      exact hd (List.mem_map.mpr ⟨c2, hc2, rfl⟩) (by rw [he]; simp)
    have hetac : ({ index := c.index, i := c.i, j := c.j, k := c.k, area := c.area, vertices := c.vertices } : Cell) = c := rfl
    have hok : (g.add_cell c).2 = .ok c.index := by
      simp [Grid.add_cell, hne, hanyc]
    have haddc : (g.add_cell c).1._cells = g._cells ++ [c] := by
      simp [Grid.add_cell, hne, hanyc]
    have haddv : (g.add_cell c).1._vertices = g._vertices := by
      simp [Grid.add_cell, hne, hanyc]
    have hstepeq : readCell f g done.length = some (g.add_cell c).1 := by
      simp only [readCell]
      rw [hslice, hmapM]
      simp only [hgidx, hgijk, hgarea]
      rw [hetac, hok]
    obtain ⟨g2, hrun, hc2, hv2⟩ :=
      ih (done ++ [c]) (g.add_cell c).1
        (by rw [hsplit, List.append_assoc, List.singleton_append])
        (by rw [haddc, hdone])
        (by
          intro c3 hc3 v hv
          have hg : (g.add_cell c).1.get_vertex v.index = g.get_vertex v.index := by
            unfold Grid.get_vertex
            rw [haddv]
          rw [hg]
          exact hres c3 (List.mem_cons_of_mem c hc3) v hv)
    refine ⟨g2, ?_, hc2, by rw [hv2, haddv]⟩
    rw [hrange]
    simp only [readCells]
    rw [hstepeq]
    have hlen1 : (done ++ [c]).length = done.length + 1 := by simp
    rw [hlen1] at hrun
    exact hrun

/-- Parsing the canonical tag of a grid type recovers it. -/
theorem parseGridType_str (x : GridType) : parseGridType x.str = some x := by
  cases x <;> rfl

/-- Parsing the canonical tag of a coordinate system recovers it. -/
theorem parseCoordinates_str (x : Coordinates) :
    parseCoordinates x.str = some x := by
  cases x <;> rfl

/-- Parsing the canonical tag of a parameterization recovers it. -/
theorem parseParameterization_str (x : Parameterization) :
    parseParameterization x.str = some x := by
  cases x <;> rfl

/-- Unfolding of the decoder once the three metadata tags parse, for an
XY-coordinates file: the projection attribute must be present. -/
theorem read_from_netcdf_eq_xy (g0 : Grid) (f : GridFile) (t : GridType)
    (pa : Parameterization)
    (h1 : parseGridType f.typeTag = some t)
    (h2 : parseCoordinates f.coordinatesTag = some Coordinates.xy)
    (h3 : parseParameterization f.parameterizationTag = some pa) :
    g0.read_from_netcdf f =
      f.sprojAtt.bind (fun sp =>
        (readVertices { g0.clear with
            name := f.name, type := t, coordinates := Coordinates.xy
            parameterization := pa, sproj := sp
            _ncells_full := f.cellsNumFull
            _nvertices_full := f.verticesNumFull }
          (f.verticesIndex.zip f.verticesXY)).bind (fun g2 =>
            readCells f g2 (List.range f.cellsIndex.length))) := by
  unfold Grid.read_from_netcdf
  rw [h1, h2, h3]
  rfl

/-- Unfolding of the decoder once the three metadata tags parse, for a
LONLAT-coordinates file: sproj is restored empty. -/
theorem read_from_netcdf_eq_lonlat (g0 : Grid) (f : GridFile) (t : GridType)
    (pa : Parameterization)
    (h1 : parseGridType f.typeTag = some t)
    (h2 : parseCoordinates f.coordinatesTag = some Coordinates.lonlat)
    (h3 : parseParameterization f.parameterizationTag = some pa) :
    g0.read_from_netcdf f =
      (readVertices { g0.clear with
          name := f.name, type := t, coordinates := Coordinates.lonlat
          parameterization := pa, sproj := ""
          _ncells_full := f.cellsNumFull
          _nvertices_full := f.verticesNumFull }
        (f.verticesIndex.zip f.verticesXY)).bind (fun g2 =>
          readCells f g2 (List.range f.cellsIndex.length)) := by
  unfold Grid.read_from_netcdf
  rw [h1, h2, h3]
  rfl

/-- Core of the round-trip argument: running the decoder loops of a file
written from g over any base grid with empty collections rebuilds the
vertex and cell sets of g up to permutation. -/
theorem roundtrip_core (g gbase : Grid)
    (hbv : gbase._vertices = []) (hbc : gbase._cells = [])
    (hvnd : (g._vertices.map (fun v => v.index)).Nodup)
    (hcnd : (g._cells.map (fun c => c.index)).Nodup)
    (hv1 : ∀ v ∈ g._vertices, v.index ≠ -1)
    (hc1 : ∀ c ∈ g._cells, c.index ≠ -1)
    (hwf : ∀ c ∈ g._cells, ∀ v ∈ c.vertices, v ∈ g._vertices) :
    ∃ g2,
      (readVertices gbase
          (g.netcdf_write.verticesIndex.zip g.netcdf_write.verticesXY)).bind
        (fun gx => readCells g.netcdf_write gx
          (List.range g.netcdf_write.cellsIndex.length)) = some g2 ∧
      g2._vertices.Perm g._vertices ∧ g2._cells.Perm g._cells := by
  have hpv : (sortVerticesByIndex g._vertices).Perm g._vertices :=
    List.mergeSort_perm g._vertices _
  have hpc : (sortCellsByIndex g._cells).Perm g._cells :=
    List.mergeSort_perm g._cells _
  have hsvnd : ((sortVerticesByIndex g._vertices).map
      (fun v => v.index)).Nodup :=
    ((hpv.map (fun v => v.index)).symm).nodup hvnd
  have hscnd : ((sortCellsByIndex g._cells).map (fun c => c.index)).Nodup :=
    ((hpc.map (fun c => c.index)).symm).nodup hcnd
  have hzip : g.netcdf_write.verticesIndex.zip g.netcdf_write.verticesXY =
      (sortVerticesByIndex g._vertices).map (fun v => (v.index, (v.x, v.y))) := by
    show ((sortVerticesByIndex g._vertices).map (fun v => v.index)).zip
        ((sortVerticesByIndex g._vertices).map (fun v => (v.x, v.y))) = _
    exact List.zip_map' _ _ _
  obtain ⟨gv, hrunv, hgvv, hgvc⟩ :=
    readVertices_run (sortVerticesByIndex g._vertices) gbase
      (fun v hv => hv1 v (hpv.mem_iff.mp hv))
      (by rw [hbv, List.nil_append]; exact hsvnd)
  rw [hbv, List.nil_append] at hgvv
  rw [hbc] at hgvc
  have hrange0 : List.range g.netcdf_write.cellsIndex.length =
      List.range' ([] : List Cell).length (sortCellsByIndex g._cells).length := by
    rw [show g.netcdf_write.cellsIndex =
        (sortCellsByIndex g._cells).map (fun c => c.index) from rfl]
    rw [List.length_map, List.range_eq_range']
    rfl
  obtain ⟨g2, hrunc, hc2, hv2⟩ :=
    readCells_run g.netcdf_write (sortCellsByIndex g._cells)
      rfl rfl rfl rfl rfl
      (fun c hc => hc1 c (hpc.mem_iff.mp hc))
      hscnd
      (sortCellsByIndex g._cells) [] gv
      (List.nil_append _).symm
      hgvc
      (by
        intro c hc v hv
        have hvg : v ∈ g._vertices :=
          hwf c (hpc.mem_iff.mp hc) v hv
        have hvs : v ∈ sortVerticesByIndex g._vertices :=
          hpv.mem_iff.mpr hvg
        show gv._vertices.find? (fun w => w.index == v.index) = some v
        rw [hgvv]
        exact find?_vertex_eq _ v hsvnd hvs)
  refine ⟨g2, ?_, ?_, ?_⟩
  · rw [hzip, hrunv, hrange0]
    exact hrunc
  · rw [hv2, hgvv]
    exact hpv
  · rw [hc2]
    exact hpc

/-- C1: encoding a grid with the Mesh Codec (netcdf_define followed by
the deferred writer netcdf_write) and decoding into a fresh grid yields
identical vertex and cell sets: the vertex records and the observable
cell contents (index, i, j, k, area, ordered vertex-index sequence) are
recovered up to permutation, for every insertion order of the original
vertices and cells.  The hypotheses state that g was populated through
add_vertex and add_cell: indices are assigned (not -1) and unique, and
cells reference vertices owned by the grid. -/
theorem netcdf_roundtrip (g : Grid) (t : GridType)
    (hvnd : (g._vertices.map (fun v => v.index)).Nodup)
    (hcnd : (g._cells.map (fun c => c.index)).Nodup)
    (hv1 : ∀ v ∈ g._vertices, v.index ≠ -1)
    (hc1 : ∀ c ∈ g._cells, c.index ≠ -1)
    (hwf : ∀ c ∈ g._cells, ∀ v ∈ c.vertices, v ∈ g._vertices) :
    ∃ g2, (Grid.fresh t).read_from_netcdf g.netcdf_write = some g2 ∧
      g2._vertices.Perm g._vertices ∧
      g2._cells.Perm g._cells ∧
      (g2._cells.map cellData).Perm (g._cells.map cellData) := by
  rcases h : g.coordinates with _ | _
  · have h2 : parseCoordinates g.netcdf_write.coordinatesTag =
        some Coordinates.xy := by
      rw [show g.netcdf_write.coordinatesTag = g.coordinates.str from rfl, h]
      exact parseCoordinates_str _
    have hsp : g.netcdf_write.sprojAtt = some g.sproj := by
      show (if g.coordinates = Coordinates.xy then some g.sproj else none) =
        some g.sproj
      rw [if_pos h]
    rw [read_from_netcdf_eq_xy (Grid.fresh t) g.netcdf_write g.type
      g.parameterization (parseGridType_str g.type) h2
      (parseParameterization_str g.parameterization), hsp]
    obtain ⟨g2, hrun, hp1, hp2⟩ :=
      roundtrip_core g
        ({ (Grid.fresh t).clear with
            name := g.netcdf_write.name, type := g.type
            coordinates := Coordinates.xy
            parameterization := g.parameterization, sproj := g.sproj
            _ncells_full := g.netcdf_write.cellsNumFull
            _nvertices_full := g.netcdf_write.verticesNumFull })
        rfl rfl hvnd hcnd hv1 hc1 hwf
    exact ⟨g2, hrun, hp1, hp2, hp2.map cellData⟩
  · have h2 : parseCoordinates g.netcdf_write.coordinatesTag =
        some Coordinates.lonlat := by
      rw [show g.netcdf_write.coordinatesTag = g.coordinates.str from rfl, h]
      exact parseCoordinates_str _
    rw [read_from_netcdf_eq_lonlat (Grid.fresh t) g.netcdf_write g.type
      g.parameterization (parseGridType_str g.type) h2
      (parseParameterization_str g.parameterization)]
    obtain ⟨g2, hrun, hp1, hp2⟩ :=
      roundtrip_core g
        ({ (Grid.fresh t).clear with
            name := g.netcdf_write.name, type := g.type
            coordinates := Coordinates.lonlat
            parameterization := g.parameterization, sproj := ""
            _ncells_full := g.netcdf_write.cellsNumFull
            _nvertices_full := g.netcdf_write.verticesNumFull })
        rfl rfl hvnd hcnd hv1 hc1 hwf
    exact ⟨g2, hrun, hp1, hp2, hp2.map cellData⟩

/-- Witness for C1: the round trip of the square grid. -/
theorem netcdf_roundtrip_witness :
    ∃ g2, (Grid.fresh .generic).read_from_netcdf squareGrid.netcdf_write =
        some g2 ∧
      g2._vertices.Perm squareGrid._vertices ∧
      g2._cells.Perm squareGrid._cells ∧
      (g2._cells.map cellData).Perm (squareGrid._cells.map cellData) :=
  netcdf_roundtrip squareGrid .generic (by decide) (by decide) (by decide)
    (by decide) (by decide)

end Glint2
